import Mathlib

/-!
Verification of the walk-forward panel batching engine
(`alphamind/model/data_preparing.py`) against its specification.

The embedding below mirrors the source module:
* `map_horizon` embeds `_map_horizon` (frequency string to trading-day
  horizon), on top of a model of the external `PyFin.DateUtilities.Period`
  parser (a count followed by a unit letter, per the spec's description of
  the frequency token).
* `batch_processing` embeds the rolling-window loop that slices the panel
  into train/predict buckets keyed by schedule dates.
* `prepare_data_join` embeds the join pipeline of `prepare_data`
  (lines 65-71 of the source).
* `fetch_data_package_flow` embeds the orchestrator's control flow after
  the data loads, in particular the risk-branch truthiness test and the
  `for i, name in enumerate(neutralized_risk)` loop.

Python dictionaries are modelled as insertion-ordered association lists
(`dsetItem` overwrites an existing key in place, otherwise appends), and
numpy boolean-mask indexing as `maskSel`.
-/

set_option maxHeartbeats 1000000

namespace AlphaMind

/-! ## Frequency parser -/

/-- Time units of the external `PyFin.Enums.TimeUnits` enumeration. -/
inductive TimeUnits where
  | BDays
  | Days
  | Weeks
  | Months
  | Years
deriving DecidableEq

/-- Unit letter of a frequency token, as accepted by the external period
parser: b/B business days, d/D calendar days, w/W weeks, m/M months,
y/Y years. -/
def charToUnit : Char → Option TimeUnits
  | 'b' => some TimeUnits.BDays
  | 'B' => some TimeUnits.BDays
  | 'd' => some TimeUnits.Days
  | 'D' => some TimeUnits.Days
  | 'w' => some TimeUnits.Weeks
  | 'W' => some TimeUnits.Weeks
  | 'm' => some TimeUnits.Months
  | 'M' => some TimeUnits.Months
  | 'y' => some TimeUnits.Years
  | 'Y' => some TimeUnits.Years
  | _ => none

/-- Value of a digit string, most significant digit first. -/
def digitsVal (cs : List Char) : Nat :=
  cs.foldl (fun n c => 10 * n + (c.toNat - 48)) 0

/-- Count part of a frequency token: a nonempty run of digits. -/
def parseCount (cs : List Char) : Option Nat :=
  if cs ≠ [] ∧ cs.all Char.isDigit then some (digitsVal cs) else none

/-- Models the external `Period` constructor used by `_map_horizon`:
splits a frequency string such as `2w` into its length (the leading
count) and its unit (the trailing letter). Returns `none` when the
string is not of that shape, matching the parser raising an error. -/
def parsePeriod (s : String) : Option (Int × TimeUnits) := do
  let c ← s.toList.getLast?
  let u ← charToUnit c
  let n ← parseCount s.toList.dropLast
  pure ((n : Int), u)

/-- Unit dispatch of `_map_horizon` (source lines 28-35): `length - 1`
for business or calendar days, `5 * length - 1` for weeks,
`22 * length - 1` for months, and an error for any other unit. -/
def map_horizon_of (unit : TimeUnits) (length : Int) : Except String Int :=
  if unit = TimeUnits.BDays ∨ unit = TimeUnits.Days then
    Except.ok (length - 1)
  else if unit = TimeUnits.Weeks then
    Except.ok (5 * length - 1)
  else if unit = TimeUnits.Months then
    Except.ok (22 * length - 1)
  else
    Except.error "unrecognized frequency rule"

/-- Embeds `_map_horizon` (source lines 24-35): parse the frequency
string into a period and dispatch on its unit. A string the period
parser itself rejects is also an error surfaced to the caller. -/
def map_horizon (frequency : String) : Except String Int :=
  match parsePeriod frequency with
  | none => Except.error "unrecognized frequency rule"
  | some (len, unit) => map_horizon_of unit len

/-! ## Walk-forward batching engine -/

/-- Numpy boolean-mask row selection `xs[mask]`: keep the rows whose
parallel mask entry is `true`. -/
def maskSel {γ : Type} (xs : List γ) (mask : List Bool) : List γ :=
  ((xs.zip mask).filter (fun p => p.2)).map Prod.fst

/-- Rows of `xs` whose parallel date label satisfies `p`. This is what a
mask built by comparing the label vector selects when `xs` and the
labels have equal length. -/
def rowSel {γ : Type} (xs : List γ) (ls : List Nat) (p : Nat → Bool) : List γ :=
  ((xs.zip ls).filter (fun q => p q.2)).map Prod.fst

/-- Python dictionary assignment `m[k] = v` on an insertion-ordered
association list: overwrite in place when the key is present, otherwise
append a new entry. -/
def dsetItem {γ : Type} (m : List (Nat × γ)) (k : Nat) (v : γ) : List (Nat × γ) :=
  if m.any (fun q => q.1 == k) then
    m.map (fun q => if q.1 == k then (k, v) else q)
  else
    m ++ [(k, v)]

/-- Keys of an association-list dictionary, in insertion order. -/
def keysOf {γ : Type} (m : List (Nat × γ)) : List Nat :=
  m.map Prod.fst

/-- The four dictionaries built by `batch_processing`, named as in the
source. Rows of the feature and target arrays share the row type `γ`,
since both go through the same `factor_processing` collaborator. -/
structure BPState (γ ρ : Type) where
  train_x_buckets : List (Nat × List γ)
  train_y_buckets : List (Nat × List γ)
  predict_x_buckets : List (Nat × List γ)
  predict_y_buckets : List (Nat × List γ)

/-- Inputs of `batch_processing`, bundled. `fp` stands for the external
`factor_processing` collaborator with its `pre_process` and
`post_process` arguments already fixed; it receives the window's raw
rows and the window's sliced risk exposures. Dates are naturals. -/
structure BPInput (γ ρ : Type) where
  x_values : List γ
  y_values : List γ
  groups : List Nat
  group_label : List Nat
  batch : Nat
  risk_exp : Option (List ρ)
  fp : List γ → Option (List ρ) → List γ

namespace BPInput

variable {γ ρ : Type} (B : BPInput γ ρ)

/-- Window start `start = groups[i]`. -/
def gStart (i : Nat) : Nat := B.groups.getD i 0

/-- Window key `end = groups[i + batch]`. -/
def gKey (i : Nat) : Nat := B.groups.getD (i + B.batch) 0

/-- Date predicate of window `i`'s train slice: label in `[start, end)`. -/
def tPred (i : Nat) : Nat → Bool :=
  fun d => decide (B.gStart i ≤ d) && decide (d < B.gKey i)

/-- Date predicate of window `i`'s predict slice: label in `(start, end]`. -/
def pPred (i : Nat) : Nat → Bool :=
  fun d => decide (B.gStart i < d) && decide (d ≤ B.gKey i)

/-- Train mask `(group_label >= start) & (group_label < end)`. -/
def tMask (i : Nat) : List Bool :=
  B.group_label.map (B.tPred i)

/-- Predict mask `(group_label > start) & (group_label <= end)`. -/
def pMask (i : Nat) : List Bool :=
  B.group_label.map (B.pPred i)

/-- Risk exposures sliced by the train mask (`risk_exp[index]`, or
`None` when no risk model is supplied). -/
def tRisk (i : Nat) : Option (List ρ) :=
  B.risk_exp.map (fun r => maskSel r (B.tMask i))

/-- Risk exposures sliced by the predict mask. -/
def pRisk (i : Nat) : Option (List ρ) :=
  B.risk_exp.map (fun r => maskSel r (B.pMask i))

/-- Train feature bucket value: the whole processed train window. -/
def tXVal (i : Nat) : List γ :=
  B.fp (maskSel B.x_values (B.tMask i)) (B.tRisk i)

/-- Train target bucket value: the whole processed train window. -/
def tYVal (i : Nat) : List γ :=
  B.fp (maskSel B.y_values (B.tMask i)) (B.tRisk i)

/-- Date labels of the predict window, `sub_dates = group_label[index]`. -/
def subDates (i : Nat) : List Nat :=
  maskSel B.group_label (B.pMask i)

/-- Processed predict-window features, `ne_x`. -/
def neX (i : Nat) : List γ :=
  B.fp (maskSel B.x_values (B.pMask i)) (B.pRisk i)

/-- Predict feature bucket value `ne_x[sub_dates == end]`. -/
def pXVal (i : Nat) : List γ :=
  maskSel (B.neX i) ((B.subDates i).map (fun d => d == B.gKey i))

/-- Raw predict-window targets, `this_raw_y` of the second slice. -/
def rawY2 (i : Nat) : List γ :=
  maskSel B.y_values (B.pMask i)

/-- Processed predict-window targets, `ne_y`. -/
def neY (i : Nat) : List γ :=
  B.fp (B.rawY2 i) (B.pRisk i)

/-- Predict target bucket value `ne_y[sub_dates == end]`. -/
def pYVal (i : Nat) : List γ :=
  maskSel (B.neY i) ((B.subDates i).map (fun d => d == B.gKey i))

/-- Body of the loop of `batch_processing` at index `i` (source lines
87-128): store the processed train window under `end` for features and
targets, store the sliced processed predict window for features, and
for targets only when the raw predict window is nonempty. -/
def step (st : BPState γ ρ) (i : Nat) : BPState γ ρ :=
  { train_x_buckets := dsetItem st.train_x_buckets (B.gKey i) (B.tXVal i)
    train_y_buckets := dsetItem st.train_y_buckets (B.gKey i) (B.tYVal i)
    predict_x_buckets := dsetItem st.predict_x_buckets (B.gKey i) (B.pXVal i)
    predict_y_buckets :=
      if 0 < (B.rawY2 i).length then
        dsetItem st.predict_y_buckets (B.gKey i) (B.pYVal i)
      else
        st.predict_y_buckets }

/-- Sequential execution of the loop over a list of window indices. -/
def loop : List Nat → BPState γ ρ → BPState γ ρ
  | [], st => st
  | i :: rest, st => loop rest (B.step st i)

/-- Number of loop iterations, `len(groups[:-batch])`: an empty slice
when `batch = 0` (Python `groups[:-0]` is `groups[:0]`), otherwise
`len(groups) - batch` truncated at zero. -/
def numIter : Nat :=
  if B.batch = 0 then 0 else B.groups.length - B.batch

/-- Full run of `batch_processing`, starting from four empty buckets. -/
def run : BPState γ ρ :=
  B.loop (List.range B.numIter) ⟨[], [], [], []⟩

end BPInput

/-- Embeds `batch_processing` (source lines 74-130): iterate
`for i, start in enumerate(groups[:-batch])` with `end = groups[i+batch]`,
slicing rows by comparing the date-label vector, processing each slice
with the external `factor_processing`, and storing buckets keyed by
`end` in four insertion-ordered dictionaries. -/
def batch_processing {γ ρ : Type} (x_values y_values : List γ)
    (groups group_label : List Nat) (batch : Nat)
    (risk_exp : Option (List ρ)) (fp : List γ → Option (List ρ) → List γ) :
    BPState γ ρ :=
  (BPInput.mk x_values y_values groups group_label batch risk_exp fp).run

/-- Concrete three-date batching input used by witnesses: one feature
row and one target row per schedule date, identity processing, no risk
model. -/
def wInput : BPInput Int Int :=
  ⟨[101, 102, 103], [201, 202, 203], [0, 1, 2], [0, 1, 2], 1, none,
    fun a _ => a⟩

/-- Concrete batching input whose schedule holds dates absent from the
label vector, so a predict window can hold no target rows. -/
def wInputGap : BPInput Int Int :=
  ⟨[7], [17], [0, 5, 6], [0], 1, none, fun a _ => a⟩

/-! ## Panel assembler join pipeline -/

/-- Join key of every panel: one row per (trade_date, code). -/
structure PKey where
  trade_date : Nat
  code : Nat
deriving DecidableEq

/-- Pandas inner merge on the key column(s): every left row is paired
with every right row carrying the same key, in left-then-right order. -/
def innerJoin {A B : Type} (l : List (PKey × A)) (r : List (PKey × B)) :
    List (PKey × A × B) :=
  l.flatMap (fun a => (r.filter (fun b => decide (b.1 = a.1))).map
    (fun b => (a.1, a.2, b.2)))

/-- Pandas left merge keeping a single value column from the right
side: rows without a match keep a missing value. -/
def leftJoinWeight {A : Type} (l : List (PKey × A)) (bm : List (PKey × Int)) :
    List (PKey × A × Option Int) :=
  l.flatMap (fun a =>
    if (bm.filter (fun b => decide (b.1 = a.1))).isEmpty then
      [(a.1, a.2, none)]
    else
      (bm.filter (fun b => decide (b.1 = a.1))).map
        (fun b => (a.1, a.2, some b.2)))

/-- Sequence of optional cell values with no missing entry; `none` when
any entry is missing (the row `dropna` keeps or drops). -/
def allSome : List (Option Int) → Option (List Int)
  | [] => some []
  | none :: _ => none
  | some v :: rest => (allSome rest).map (fun vs => v :: vs)

/-- Row of the feature frame returned by `prepare_data`: key, weight,
industry code and name, and the factor values. The `isOpen` flag rides
along with the factor columns and is not modelled separately. -/
structure FeatureRow where
  key : PKey
  weight : Int
  industry_code : Int
  industry : Int
  fvals : List Int
deriving DecidableEq

/-- Embeds the join pipeline of `prepare_data` (source lines 65-71):
inner-merge the factor panel with the forward-return panel and drop
rows with any missing value; left-merge with the benchmark panel and
fill missing weights with 0; inner-merge with the industry panel; then
project the same joined frame into the target frame (key, dx) and the
feature frame. Factor cells and dx are optional on input to model NaN;
industry names are coded as integers. -/
def prepare_data_join (factor_df : List (PKey × List (Option Int)))
    (return_df : List (PKey × Option Int))
    (benchmark_df : List (PKey × Int))
    (industry_df : List (PKey × Int × Int)) :
    List (PKey × Int) × List FeatureRow :=
  let merged := innerJoin factor_df return_df
  let clean := merged.filterMap (fun r =>
    match allSome r.2.1, r.2.2 with
    | some vs, some d => some (r.1, vs, d)
    | _, _ => none)
  let withW := leftJoinWeight clean benchmark_df
  let filled := withW.map (fun r => (r.1, r.2.1, r.2.2.getD 0))
  let final := innerJoin filled industry_df
  (final.map (fun r => (r.1, r.2.1.1.2)),
   final.map (fun r => ⟨r.1, r.2.1.2, r.2.2.1, r.2.2.2, r.2.1.1.1⟩))

/-! ## Orchestrator flow -/

/-- Python truthiness of the `neutralized_risk` argument: `None` and
the empty list are falsy, a nonempty list is truthy. -/
def pyTruthy {σ : Type} : Option (List σ) → Bool
  | some (_ :: _) => true
  | _ => false

/-- Models Python `enumerate` applied to a value that may be `None`:
enumerating a list yields the indexed pairs, while enumerating `None`
raises `TypeError` (NoneType is not iterable). -/
def pyEnumerate {σ : Type} : Option (List σ) → Except String (List (Nat × σ))
  | none => Except.error "TypeError: NoneType object is not iterable"
  | some l => Except.ok l.enum

/-- Package returned by `fetch_data_package`: factor names, the
settlement frame, and the four train/predict bucket dictionaries. -/
structure DataPackage (γ ρ δ : Type) where
  x_names : List Nat
  settlement : δ
  train_predict : BPState γ ρ

/-- Embeds the control flow of `fetch_data_package` after the panels
are loaded (source lines 142-205): pick the risk branch by the
truthiness of `neutralized_risk` (so `risk_exp` is `None` on the falsy
branch), run `for i, name in enumerate(neutralized_risk)` to append
risk-exposure columns to the settlement frame, call
`batch_processing`, and package the result. The settlement frame and
the pandas column assignment are abstract (`return_df`, `addRiskCol`);
`risk_data` stands for the risk exposures fetched on the truthy
branch. -/
def fetch_data_package_flow {γ ρ δ : Type} (x_names : List Nat)
    (neutralized_risk : Option (List Nat))
    (x_values y_values : List γ) (groups group_label : List Nat) (batch : Nat)
    (risk_data : Option (List ρ))
    (fp : List γ → Option (List ρ) → List γ)
    (return_df : δ) (addRiskCol : δ → Nat × Nat → δ) :
    Except String (DataPackage γ ρ δ) := do
  let risk_exp := if pyTruthy neutralized_risk then risk_data else none
  let pairs ← pyEnumerate neutralized_risk
  let settlement := pairs.foldl addRiskCol return_df
  let buckets := batch_processing x_values y_values groups group_label batch
    risk_exp fp
  pure { x_names := x_names, settlement := settlement,
         train_predict := buckets }

/-! ## Frequency parser claims -/

/-- Claim C5: for every frequency string that parses to a unit and a
length, `map_horizon` returns `length - 1` for business-day or
calendar-day units, `5 * length - 1` for week units and
`22 * length - 1` for month units; in particular it maps `1b` to 0,
`2w` to 9 and `3m` to 65. -/
theorem map_horizon_values (s : String) (len : Int) (u : TimeUnits)
    (hparse : parsePeriod s = some (len, u)) :
    ((u = TimeUnits.BDays ∨ u = TimeUnits.Days) →
      map_horizon s = Except.ok (len - 1)) ∧
    (u = TimeUnits.Weeks → map_horizon s = Except.ok (5 * len - 1)) ∧
    (u = TimeUnits.Months → map_horizon s = Except.ok (22 * len - 1)) ∧
    map_horizon "1b" = Except.ok 0 ∧
    map_horizon "2w" = Except.ok 9 ∧
    map_horizon "3m" = Except.ok 65 := by
  refine ⟨?_, ?_, ?_, by rfl, by rfl, by rfl⟩ <;>
    (intro hu; simp only [map_horizon, hparse]) <;>
    cases u <;> simp_all [map_horizon_of]

/-- Witness for C5 at the concrete input `5d`. -/
theorem map_horizon_values_witness :
    parsePeriod "5d" = some (5, TimeUnits.Days) ∧
      map_horizon "5d" = Except.ok 4 :=
  ⟨by rfl,
    (map_horizon_values "5d" 5 TimeUnits.Days (by rfl)).1 (Or.inr rfl)⟩

/-- Claim C6: for every frequency string whose parsed unit is not a
business-day, calendar-day, week or month unit (that is, the year
unit), `map_horizon` surfaces the unrecognized-frequency error to the
caller; for exactly the recognized units it succeeds with an integer. -/
theorem map_horizon_unrecognized (s : String) (len : Int) (u : TimeUnits)
    (hparse : parsePeriod s = some (len, u)) :
    (u ≠ TimeUnits.Years → ∃ k : Int, map_horizon s = Except.ok k) ∧
    (u = TimeUnits.Years →
      map_horizon s = Except.error "unrecognized frequency rule") := by
  constructor <;> (intro hu; simp only [map_horizon, hparse]) <;>
    cases u <;> simp_all [map_horizon_of]

/-- Witness for C6 at the concrete inputs `1y` (error) and `4w` (ok). -/
theorem map_horizon_unrecognized_witness :
    (parsePeriod "1y" = some (1, TimeUnits.Years) ∧
      map_horizon "1y" = Except.error "unrecognized frequency rule") ∧
    (parsePeriod "4w" = some (4, TimeUnits.Weeks) ∧
      ∃ k : Int, map_horizon "4w" = Except.ok k) :=
  ⟨⟨by rfl,
      (map_horizon_unrecognized "1y" 1 TimeUnits.Years (by rfl)).2 rfl⟩,
    ⟨by rfl,
      (map_horizon_unrecognized "4w" 4 TimeUnits.Weeks (by rfl)).1
        (by intro h; cases h)⟩⟩

/-- Claim C8: for a fixed recognized unit, `map_horizon` is
monotonically non-decreasing in the count: if two frequency strings
parse to the same recognized unit with counts `n1 <= n2`, both map to
horizons `k1 <= k2`. -/
theorem map_horizon_monotone (s1 s2 : String) (n1 n2 : Int) (u : TimeUnits)
    (h1 : parsePeriod s1 = some (n1, u)) (h2 : parsePeriod s2 = some (n2, u))
    (hu : u ≠ TimeUnits.Years) (hle : n1 ≤ n2) :
    ∃ k1 k2 : Int, map_horizon s1 = Except.ok k1 ∧
      map_horizon s2 = Except.ok k2 ∧ k1 ≤ k2 := by
  simp only [map_horizon, h1, h2]
  cases u <;> simp_all [map_horizon_of]

/-- Witness for C8 at the concrete inputs `1w` and `3w`. -/
theorem map_horizon_monotone_witness :
    parsePeriod "1w" = some (1, TimeUnits.Weeks) ∧
    parsePeriod "3w" = some (3, TimeUnits.Weeks) ∧
    ∃ k1 k2 : Int, map_horizon "1w" = Except.ok k1 ∧
      map_horizon "3w" = Except.ok k2 ∧ k1 ≤ k2 :=
  ⟨by rfl, by rfl,
    map_horizon_monotone "1w" "3w" 1 3 TimeUnits.Weeks (by rfl) (by rfl)
      (by intro h; cases h) (by omega)⟩

/-! ## List and dictionary helper lemmas -/

theorem maskSel_nil {γ : Type} (mask : List Bool) : maskSel ([] : List γ) mask = [] := by
  simp [maskSel]

theorem maskSel_nil_mask {γ : Type} (xs : List γ) : maskSel xs [] = [] := by
  simp [maskSel]

theorem maskSel_cons {γ : Type} (x : γ) (xs : List γ) (b : Bool) (mask : List Bool) :
    maskSel (x :: xs) (b :: mask)
      = if b then x :: maskSel xs mask else maskSel xs mask := by
  cases b <;> simp [maskSel, List.filter_cons]

theorem rowSel_nil {γ : Type} (ls : List Nat) (p : Nat → Bool) :
    rowSel ([] : List γ) ls p = [] := by
  simp [rowSel]

theorem rowSel_cons {γ : Type} (x : γ) (xs : List γ) (l : Nat) (ls : List Nat)
    (p : Nat → Bool) :
    rowSel (x :: xs) (l :: ls) p
      = if p l then x :: rowSel xs ls p else rowSel xs ls p := by
  by_cases h : p l <;> simp [rowSel, List.filter_cons, h]

theorem maskSel_map_eq_rowSel {γ : Type} (p : Nat → Bool) :
    ∀ (xs : List γ) (ls : List Nat), xs.length = ls.length →
      maskSel xs (ls.map p) = rowSel xs ls p
  | [], _, _ => by simp [maskSel_nil, rowSel_nil]
  | x :: xs, [], h => by simp at h
  | x :: xs, l :: ls, h => by
    have ih := maskSel_map_eq_rowSel p xs ls (by simpa using h)
    simp only [List.map_cons, maskSel_cons, rowSel_cons, ih]

theorem rowSel_self (p : Nat → Bool) :
    ∀ ls : List Nat, rowSel ls ls p = ls.filter p
  | [] => by simp [rowSel_nil]
  | l :: ls => by
    by_cases h : p l <;>
      simp [rowSel_cons, List.filter_cons, h, rowSel_self p ls]

theorem length_rowSel {γ : Type} (p : Nat → Bool) :
    ∀ (xs : List γ) (ls : List Nat), xs.length = ls.length →
      (rowSel xs ls p).length = (ls.filter p).length
  | [], [], _ => by simp [rowSel_nil]
  | [], _ :: _, h => by simp at h
  | _ :: _, [], h => by simp at h
  | x :: xs, l :: ls, h => by
    have ih := length_rowSel p xs ls (by simpa using h)
    by_cases hp : p l <;> simp [rowSel_cons, List.filter_cons, hp, ih]

theorem keysOf_append {γ : Type} (m l : List (Nat × γ)) :
    keysOf (m ++ l) = keysOf m ++ keysOf l := by
  simp [keysOf]

theorem dsetItem_of_not_mem {γ : Type} (m : List (Nat × γ)) (k : Nat) (v : γ)
    (h : k ∉ keysOf m) : dsetItem m k v = m ++ [(k, v)] := by
  have hany : m.any (fun q => q.1 == k) = false := by
    rw [List.any_eq_false]
    intro q hq hqk
    exact h (List.mem_map.mpr ⟨q, hq, by simpa using hqk⟩)
  rw [dsetItem, hany]
  simp

theorem lookup_map_of_mem {β : Type} (f : Nat → Nat) (g : Nat → β) :
    ∀ (is : List Nat) (j : Nat), j ∈ is →
      is.Pairwise (fun a b => f a ≠ f b) →
      (is.map (fun i => (f i, g i))).lookup (f j) = some (g j)
  | [], j, hj, _ => by simp at hj
  | i :: rest, j, hj, hp => by
    rw [List.pairwise_cons] at hp
    by_cases hij : j = i
    · subst hij
      simp [List.lookup]
    · have hjr : j ∈ rest := by
        rcases List.mem_cons.mp hj with h | h
        · exact absurd h hij
        · exact h
      have hne : (f j == f i) = false := by
        simpa using (hp.1 j hjr).symm
      simp only [List.map_cons, List.lookup, hne]
      exact lookup_map_of_mem f g rest j hjr hp.2

theorem lookup_eq_none_of_keys_ne {β : Type} (k : Nat) :
    ∀ m : List (Nat × β), (∀ p ∈ m, p.1 ≠ k) → m.lookup k = none
  | [], _ => rfl
  | q :: rest, h => by
    have hne : (k == q.1) = false := by
      simpa using (h q (List.mem_cons_self q rest)).symm
    simp only [List.lookup, hne]
    exact lookup_eq_none_of_keys_ne k rest
      (fun p hp => h p (List.mem_cons_of_mem q hp))

theorem lookup_isSome_of_mem_keys {β : Type} (k : Nat) :
    ∀ m : List (Nat × β), k ∈ keysOf m → (m.lookup k).isSome = true
  | [], h => by simp [keysOf] at h
  | q :: rest, h => by
    by_cases hk : k = q.1
    · simp [List.lookup, hk]
    · have hmem : k ∈ keysOf rest := by
        simp only [keysOf, List.map_cons, List.mem_cons] at h
        rcases h with h1 | h1
        · exact absurd h1 hk
        · simpa [keysOf] using h1
      have hne : (k == q.1) = false := by simpa using hk
      simp only [List.lookup, hne]
      exact lookup_isSome_of_mem_keys k rest hmem

theorem mem_keys_of_lookup_isSome {β : Type} (k : Nat) :
    ∀ m : List (Nat × β), (m.lookup k).isSome = true → k ∈ keysOf m
  | [], h => by simp [List.lookup] at h
  | q :: rest, h => by
    by_cases hk : (k == q.1) = true
    · have : k = q.1 := by simpa using hk
      simp [keysOf, this]
    · have hne : (k == q.1) = false := by simpa using hk
      simp only [List.lookup, hne] at h
      have hmem := mem_keys_of_lookup_isSome k rest h
      simp only [keysOf, List.map_cons, List.mem_cons]
      exact Or.inr (by simpa [keysOf] using hmem)

/-! ## Loop characterization -/

theorem numIter_le {γ ρ : Type} (B : BPInput γ ρ) :
    B.numIter ≤ B.groups.length - B.batch := by
  rw [BPInput.numIter]
  split <;> omega

theorem numIter_eq {γ ρ : Type} (B : BPInput γ ρ) (hb : 1 ≤ B.batch) :
    B.numIter = B.groups.length - B.batch := by
  rw [BPInput.numIter, if_neg (by omega)]

theorem gKey_eq_getElem {γ ρ : Type} (B : BPInput γ ρ) {i : Nat}
    (h : i + B.batch < B.groups.length) :
    B.gKey i = B.groups[i + B.batch] := by
  simp [BPInput.gKey, List.getD_eq_getElem?_getD, List.getElem?_eq_getElem h]

theorem gKey_ne {γ ρ : Type} (B : BPInput γ ρ)
    (hmono : B.groups.Pairwise (· < ·)) {i j : Nat} (hij : i < j)
    (hj : j < B.numIter) : B.gKey i ≠ B.gKey j := by
  have hb : B.batch ≠ 0 := by
    intro h
    rw [BPInput.numIter, if_pos h] at hj
    omega
  have hjlen : j + B.batch < B.groups.length := by
    rw [BPInput.numIter, if_neg hb] at hj
    omega
  have hilen : i + B.batch < B.groups.length := by omega
  have hlt : B.groups[i + B.batch] < B.groups[j + B.batch] :=
    List.pairwise_iff_getElem.mp hmono _ _ hilen hjlen (by omega)
  rw [gKey_eq_getElem B hilen, gKey_eq_getElem B hjlen]
  omega

theorem gKey_pairwise_range {γ ρ : Type} (B : BPInput γ ρ)
    (hmono : B.groups.Pairwise (· < ·)) :
    (List.range B.numIter).Pairwise (fun i j => B.gKey i ≠ B.gKey j) := by
  refine (List.pairwise_lt_range B.numIter).imp_of_mem ?_
  intro i j _ hjmem hij
  exact gKey_ne B hmono hij (List.mem_range.mp hjmem)

theorem loop_eq {γ ρ : Type} (B : BPInput γ ρ) :
    ∀ (is : List Nat) (st : BPState γ ρ),
      is.Pairwise (fun i j => B.gKey i ≠ B.gKey j) →
      (∀ i ∈ is, B.gKey i ∉ keysOf st.train_x_buckets) →
      (∀ i ∈ is, B.gKey i ∉ keysOf st.train_y_buckets) →
      (∀ i ∈ is, B.gKey i ∉ keysOf st.predict_x_buckets) →
      (∀ i ∈ is, B.gKey i ∉ keysOf st.predict_y_buckets) →
      B.loop is st = ⟨
        st.train_x_buckets ++ is.map (fun i => (B.gKey i, B.tXVal i)),
        st.train_y_buckets ++ is.map (fun i => (B.gKey i, B.tYVal i)),
        st.predict_x_buckets ++ is.map (fun i => (B.gKey i, B.pXVal i)),
        st.predict_y_buckets ++
          (is.filter (fun i => decide (0 < (B.rawY2 i).length))).map
            (fun i => (B.gKey i, B.pYVal i))⟩
  | [], st, _, _, _, _, _ => by simp [BPInput.loop]
  | i :: rest, st, hp, h1, h2, h3, h4 => by
    rw [List.pairwise_cons] at hp
    have hstep1 : (B.step st i).train_x_buckets
        = st.train_x_buckets ++ [(B.gKey i, B.tXVal i)] :=
      dsetItem_of_not_mem _ _ _ (h1 i (List.mem_cons_self i rest))
    have hstep2 : (B.step st i).train_y_buckets
        = st.train_y_buckets ++ [(B.gKey i, B.tYVal i)] :=
      dsetItem_of_not_mem _ _ _ (h2 i (List.mem_cons_self i rest))
    have hstep3 : (B.step st i).predict_x_buckets
        = st.predict_x_buckets ++ [(B.gKey i, B.pXVal i)] :=
      dsetItem_of_not_mem _ _ _ (h3 i (List.mem_cons_self i rest))
    have hfresh : ∀ {β : Type} (m : List (Nat × β)) (v : β),
        (∀ a ∈ i :: rest, B.gKey a ∉ keysOf m) →
        ∀ j ∈ rest, B.gKey j ∉ keysOf (m ++ [(B.gKey i, v)]) := by
      intro β m v hm j hj
      rw [keysOf_append]
      simp only [List.mem_append, keysOf, List.map_cons, List.map_nil,
        List.mem_singleton, not_or]
      exact ⟨hm j (List.mem_cons_of_mem i hj), (hp.1 j hj).symm⟩
    by_cases hc : 0 < (B.rawY2 i).length
    · have hstep4 : (B.step st i).predict_y_buckets
          = st.predict_y_buckets ++ [(B.gKey i, B.pYVal i)] := by
        rw [BPInput.step]
        simp only [if_pos hc]
        exact dsetItem_of_not_mem _ _ _ (h4 i (List.mem_cons_self i rest))
      rw [show B.loop (i :: rest) st = B.loop rest (B.step st i) from rfl,
        loop_eq B rest (B.step st i) hp.2
          (by rw [hstep1]; exact hfresh _ _ h1)
          (by rw [hstep2]; exact hfresh _ _ h2)
          (by rw [hstep3]; exact hfresh _ _ h3)
          (by rw [hstep4]; exact hfresh _ _ h4),
        hstep1, hstep2, hstep3, hstep4]
      simp [List.filter_cons, hc, List.append_assoc]
    · have hstep4 : (B.step st i).predict_y_buckets = st.predict_y_buckets := by
        rw [BPInput.step]
        simp only [if_neg hc]
      rw [show B.loop (i :: rest) st = B.loop rest (B.step st i) from rfl,
        loop_eq B rest (B.step st i) hp.2
          (by rw [hstep1]; exact hfresh _ _ h1)
          (by rw [hstep2]; exact hfresh _ _ h2)
          (by rw [hstep3]; exact hfresh _ _ h3)
          (by rw [hstep4]; intro j hj; exact h4 j (List.mem_cons_of_mem i hj)),
        hstep1, hstep2, hstep3, hstep4]
      simp [List.filter_cons, hc, List.append_assoc]

theorem run_eq {γ ρ : Type} (B : BPInput γ ρ)
    (hmono : B.groups.Pairwise (· < ·)) :
    B.run = ⟨
      (List.range B.numIter).map (fun i => (B.gKey i, B.tXVal i)),
      (List.range B.numIter).map (fun i => (B.gKey i, B.tYVal i)),
      (List.range B.numIter).map (fun i => (B.gKey i, B.pXVal i)),
      ((List.range B.numIter).filter
          (fun i => decide (0 < (B.rawY2 i).length))).map
        (fun i => (B.gKey i, B.pYVal i))⟩ := by
  have h := loop_eq B (List.range B.numIter) ⟨[], [], [], []⟩
    (gKey_pairwise_range B hmono)
    (by intro i _; simp [keysOf]) (by intro i _; simp [keysOf])
    (by intro i _; simp [keysOf]) (by intro i _; simp [keysOf])
  simpa [BPInput.run] using h

/-! ## Window content lemmas -/

theorem tXVal_eq {γ ρ : Type} (B : BPInput γ ρ)
    (hx : B.x_values.length = B.group_label.length) (i : Nat) :
    B.tXVal i
      = B.fp (rowSel B.x_values B.group_label (B.tPred i)) (B.tRisk i) := by
  rw [BPInput.tXVal, BPInput.tMask, maskSel_map_eq_rowSel _ _ _ hx]

theorem tYVal_eq {γ ρ : Type} (B : BPInput γ ρ)
    (hy : B.y_values.length = B.group_label.length) (i : Nat) :
    B.tYVal i
      = B.fp (rowSel B.y_values B.group_label (B.tPred i)) (B.tRisk i) := by
  rw [BPInput.tYVal, BPInput.tMask, maskSel_map_eq_rowSel _ _ _ hy]

theorem subDates_eq {γ ρ : Type} (B : BPInput γ ρ) (i : Nat) :
    B.subDates i = B.group_label.filter (B.pPred i) := by
  rw [BPInput.subDates, BPInput.pMask, maskSel_map_eq_rowSel _ _ _ rfl,
    rowSel_self]

theorem rawY2_eq {γ ρ : Type} (B : BPInput γ ρ)
    (hy : B.y_values.length = B.group_label.length) (i : Nat) :
    B.rawY2 i = rowSel B.y_values B.group_label (B.pPred i) := by
  rw [BPInput.rawY2, BPInput.pMask, maskSel_map_eq_rowSel _ _ _ hy]

theorem pXVal_eq {γ ρ : Type} (B : BPInput γ ρ)
    (hx : B.x_values.length = B.group_label.length)
    (hfp : ∀ a r, (B.fp a r).length = a.length) (i : Nat) :
    B.pXVal i = rowSel
      (B.fp (rowSel B.x_values B.group_label (B.pPred i)) (B.pRisk i))
      (B.group_label.filter (B.pPred i)) (fun d => d == B.gKey i) := by
  have hne : B.neX i
      = B.fp (rowSel B.x_values B.group_label (B.pPred i)) (B.pRisk i) := by
    rw [BPInput.neX, BPInput.pMask, maskSel_map_eq_rowSel _ _ _ hx]
  have hlen : (B.neX i).length = (B.subDates i).length := by
    rw [hne, hfp, length_rowSel _ _ _ hx, subDates_eq]
  rw [BPInput.pXVal, maskSel_map_eq_rowSel _ _ _ hlen, hne, subDates_eq]

theorem pYVal_eq {γ ρ : Type} (B : BPInput γ ρ)
    (hy : B.y_values.length = B.group_label.length)
    (hfp : ∀ a r, (B.fp a r).length = a.length) (i : Nat) :
    B.pYVal i = rowSel
      (B.fp (rowSel B.y_values B.group_label (B.pPred i)) (B.pRisk i))
      (B.group_label.filter (B.pPred i)) (fun d => d == B.gKey i) := by
  have hne : B.neY i
      = B.fp (rowSel B.y_values B.group_label (B.pPred i)) (B.pRisk i) := by
    rw [BPInput.neY, rawY2_eq B hy]
  have hlen : (B.neY i).length = (B.subDates i).length := by
    rw [hne, hfp, length_rowSel _ _ _ hy, subDates_eq]
  rw [BPInput.pYVal, maskSel_map_eq_rowSel _ _ _ hlen, hne, subDates_eq]

theorem gStart_eq_getElem {γ ρ : Type} (B : BPInput γ ρ) {i : Nat}
    (h : i < B.groups.length) : B.gStart i = B.groups[i] := by
  simp [BPInput.gStart, List.getD_eq_getElem?_getD, List.getElem?_eq_getElem h]

theorem gKey_ne_of_ne {γ ρ : Type} (B : BPInput γ ρ)
    (hmono : B.groups.Pairwise (· < ·)) {i j : Nat} (hi : i < B.numIter)
    (hj : j < B.numIter) (hne : i ≠ j) : B.gKey i ≠ B.gKey j := by
  rcases Nat.lt_or_gt_of_ne hne with h | h
  · exact gKey_ne B hmono h hj
  · exact (gKey_ne B hmono h hi).symm

theorem gStart_lt_gKey {γ ρ : Type} (B : BPInput γ ρ)
    (hmono : B.groups.Pairwise (· < ·)) (hb : 1 ≤ B.batch) {i : Nat}
    (hi : i + B.batch < B.groups.length) : B.gStart i < B.gKey i := by
  rw [gStart_eq_getElem B (by omega), gKey_eq_getElem B hi]
  exact List.pairwise_iff_getElem.mp hmono _ _ (by omega) hi (by omega)

theorem range_map_gKey_eq_drop {γ ρ : Type} (B : BPInput γ ρ)
    (hb : 1 ≤ B.batch) (hbn : B.batch ≤ B.groups.length) :
    (List.range B.numIter).map B.gKey = B.groups.drop B.batch := by
  apply List.ext_getElem
  · simp [numIter_eq B hb]
  · intro n h1 h2
    simp only [List.getElem_map, List.getElem_range]
    have hn : n < B.groups.length - B.batch := by
      simpa [numIter_eq B hb] using h1
    rw [List.getElem_drop, gKey_eq_getElem B (by omega)]
    simp [Nat.add_comm]

theorem keysOf_map_pair {β : Type} (f : Nat → Nat) (g : Nat → β)
    (is : List Nat) : keysOf (is.map (fun i => (f i, g i))) = is.map f := by
  simp [keysOf, List.map_map]

/-! ## Batching engine claims -/

/-- Claim C1: for every window index `i` with `i < n - batch`, the train
bucket stored under the key `end = groups[i + batch]` is the processed
slice of exactly the rows whose date label satisfies the train
predicate `start <= label < end` (both for features and targets), and
no label satisfying that predicate equals the key date `end`, so no row
labeled `end` ever enters a train bucket. -/
theorem train_bucket_exact_window {γ ρ : Type} (B : BPInput γ ρ)
    (hmono : B.groups.Pairwise (· < ·)) (hb : 1 ≤ B.batch)
    (hx : B.x_values.length = B.group_label.length)
    (hy : B.y_values.length = B.group_label.length)
    (i : Nat) (hi : i < B.groups.length - B.batch)
    (R : BPState γ ρ)
    (hR : R = batch_processing B.x_values B.y_values B.groups B.group_label
      B.batch B.risk_exp B.fp) :
    R.train_x_buckets.lookup (B.gKey i)
      = some (B.fp (rowSel B.x_values B.group_label (B.tPred i)) (B.tRisk i)) ∧
    R.train_y_buckets.lookup (B.gKey i)
      = some (B.fp (rowSel B.y_values B.group_label (B.tPred i)) (B.tRisk i)) ∧
    (∀ d ∈ B.group_label, B.tPred i d = true → d ≠ B.gKey i) := by
  have hrun : batch_processing B.x_values B.y_values B.groups B.group_label
      B.batch B.risk_exp B.fp = B.run := rfl
  subst hR
  have himem : i ∈ List.range B.numIter := by
    rw [List.mem_range, numIter_eq B hb]
    exact hi
  have htx : (B.run).train_x_buckets
      = (List.range B.numIter).map (fun j => (B.gKey j, B.tXVal j)) := by
    rw [run_eq B hmono]
  have hty : (B.run).train_y_buckets
      = (List.range B.numIter).map (fun j => (B.gKey j, B.tYVal j)) := by
    rw [run_eq B hmono]
  refine ⟨?_, ?_, ?_⟩
  · rw [hrun, htx,
      lookup_map_of_mem B.gKey B.tXVal (List.range B.numIter) i himem
        (gKey_pairwise_range B hmono),
      tXVal_eq B hx]
  · rw [hrun, hty,
      lookup_map_of_mem B.gKey B.tYVal (List.range B.numIter) i himem
        (gKey_pairwise_range B hmono),
      tYVal_eq B hy]
  · intro d _ hp
    simp only [BPInput.tPred, Bool.and_eq_true, decide_eq_true_eq] at hp
    omega

/-- Witness for C1: three rows labeled 0, 1, 2, schedule (0, 1, 2),
batch size 1; the train bucket under key 2 holds exactly the row
labeled 1. -/
theorem train_bucket_exact_window_witness :
    wInput.gKey 1 = 2 ∧
    (batch_processing wInput.x_values wInput.y_values wInput.groups
        wInput.group_label wInput.batch wInput.risk_exp
        wInput.fp).train_x_buckets.lookup (wInput.gKey 1)
      = some (wInput.fp
          (rowSel wInput.x_values wInput.group_label (wInput.tPred 1))
          (wInput.tRisk 1)) ∧
    wInput.fp (rowSel wInput.x_values wInput.group_label (wInput.tPred 1))
        (wInput.tRisk 1)
      = [102] :=
  ⟨by decide,
    (train_bucket_exact_window wInput (by decide) (by decide) (by decide)
      (by decide) 1 (by decide) _ rfl).1,
    by decide⟩

/-- Claim C2: for every window index `i` with `i < n - batch`, the
predict feature bucket stored under the key `end = groups[i + batch]`
is obtained by processing the full shifted window of rows with label in
`(start, end]` and then keeping exactly the processed rows whose label
equals `end`; the same holds for the target bucket whenever the shifted
window holds at least one target row. Requires the external processing
to be row-count preserving, as the numpy mask indexing in the source
does. -/
theorem predict_bucket_only_end_date {γ ρ : Type} (B : BPInput γ ρ)
    (hmono : B.groups.Pairwise (· < ·)) (hb : 1 ≤ B.batch)
    (hx : B.x_values.length = B.group_label.length)
    (hy : B.y_values.length = B.group_label.length)
    (hfp : ∀ a r, (B.fp a r).length = a.length)
    (i : Nat) (hi : i < B.groups.length - B.batch)
    (R : BPState γ ρ)
    (hR : R = batch_processing B.x_values B.y_values B.groups B.group_label
      B.batch B.risk_exp B.fp) :
    R.predict_x_buckets.lookup (B.gKey i)
      = some (rowSel
          (B.fp (rowSel B.x_values B.group_label (B.pPred i)) (B.pRisk i))
          (B.group_label.filter (B.pPred i)) (fun d => d == B.gKey i)) ∧
    (0 < (rowSel B.y_values B.group_label (B.pPred i)).length →
      R.predict_y_buckets.lookup (B.gKey i)
        = some (rowSel
            (B.fp (rowSel B.y_values B.group_label (B.pPred i)) (B.pRisk i))
            (B.group_label.filter (B.pPred i)) (fun d => d == B.gKey i))) := by
  have hrun : batch_processing B.x_values B.y_values B.groups B.group_label
      B.batch B.risk_exp B.fp = B.run := rfl
  subst hR
  have himem : i ∈ List.range B.numIter := by
    rw [List.mem_range, numIter_eq B hb]
    exact hi
  constructor
  · have hpx : (B.run).predict_x_buckets
        = (List.range B.numIter).map (fun j => (B.gKey j, B.pXVal j)) := by
      rw [run_eq B hmono]
    rw [hrun, hpx,
      lookup_map_of_mem B.gKey B.pXVal (List.range B.numIter) i himem
        (gKey_pairwise_range B hmono),
      pXVal_eq B hx hfp]
  · intro hpos
    have hpy : (B.run).predict_y_buckets
        = ((List.range B.numIter).filter
            (fun j => decide (0 < (B.rawY2 j).length))).map
          (fun j => (B.gKey j, B.pYVal j)) := by
      rw [run_eq B hmono]
    have hcond : decide (0 < (B.rawY2 i).length) = true := by
      rw [rawY2_eq B hy]
      simpa using hpos
    have himemf : i ∈ (List.range B.numIter).filter
        (fun j => decide (0 < (B.rawY2 j).length)) :=
      List.mem_filter.mpr ⟨himem, hcond⟩
    rw [hrun, hpy,
      lookup_map_of_mem B.gKey B.pYVal _ i himemf
        ((gKey_pairwise_range B hmono).sublist (List.filter_sublist _)),
      pYVal_eq B hy hfp]

/-- Witness for C2: with schedule (0, 1, 2), batch size 1 and one row
per date, the predict buckets under key 1 hold exactly the row labeled
1. -/
theorem predict_bucket_only_end_date_witness :
    wInput.gKey 0 = 1 ∧
    (batch_processing wInput.x_values wInput.y_values wInput.groups
        wInput.group_label wInput.batch wInput.risk_exp
        wInput.fp).predict_x_buckets.lookup (wInput.gKey 0)
      = some (rowSel
          (wInput.fp
            (rowSel wInput.x_values wInput.group_label (wInput.pPred 0))
            (wInput.pRisk 0))
          (wInput.group_label.filter (wInput.pPred 0))
          (fun d => d == wInput.gKey 0)) ∧
    rowSel
        (wInput.fp
          (rowSel wInput.x_values wInput.group_label (wInput.pPred 0))
          (wInput.pRisk 0))
        (wInput.group_label.filter (wInput.pPred 0))
        (fun d => d == wInput.gKey 0)
      = [102] :=
  ⟨by decide,
    (predict_bucket_only_end_date wInput (by decide) (by decide) (by decide)
      (by decide) (by intro a r; rfl) 0 (by decide) _ rfl).1,
    by decide⟩

/-- Claim C3 (amended): for every strictly increasing schedule of
length `n` and every batch size `b` with `1 <= b <= n`, the engine
produces exactly `n - b` train feature buckets, `n - b` train target
buckets and `n - b` predict feature buckets, keyed exactly by
`groups[b], ..., groups[n-1]` in order, and at most `n - b` predict
target buckets whose keys all lie in that same range. The amendment
restricts the claimed `b <= n` to `1 <= b <= n`: for `b = 0` the
source's `groups[:-batch]` slice is empty and no bucket is produced. -/
theorem bucket_counts_and_keys {γ ρ : Type} (B : BPInput γ ρ)
    (hmono : B.groups.Pairwise (· < ·)) (hb : 1 ≤ B.batch)
    (hbn : B.batch ≤ B.groups.length)
    (R : BPState γ ρ)
    (hR : R = batch_processing B.x_values B.y_values B.groups B.group_label
      B.batch B.risk_exp B.fp) :
    keysOf R.train_x_buckets = B.groups.drop B.batch ∧
    keysOf R.train_y_buckets = B.groups.drop B.batch ∧
    keysOf R.predict_x_buckets = B.groups.drop B.batch ∧
    R.train_x_buckets.length = B.groups.length - B.batch ∧
    R.train_y_buckets.length = B.groups.length - B.batch ∧
    R.predict_x_buckets.length = B.groups.length - B.batch ∧
    R.predict_y_buckets.length ≤ B.groups.length - B.batch ∧
    (∀ k ∈ keysOf R.predict_y_buckets, k ∈ B.groups.drop B.batch) := by
  have hrun : batch_processing B.x_values B.y_values B.groups B.group_label
      B.batch B.risk_exp B.fp = B.run := rfl
  subst hR
  rw [hrun, run_eq B hmono]
  have hdrop := range_map_gKey_eq_drop B hb hbn
  have hkx : keysOf ((List.range B.numIter).map
      (fun j => (B.gKey j, B.tXVal j))) = B.groups.drop B.batch := by
    rw [keysOf_map_pair, hdrop]
  have hky : keysOf ((List.range B.numIter).map
      (fun j => (B.gKey j, B.tYVal j))) = B.groups.drop B.batch := by
    rw [keysOf_map_pair, hdrop]
  have hkp : keysOf ((List.range B.numIter).map
      (fun j => (B.gKey j, B.pXVal j))) = B.groups.drop B.batch := by
    rw [keysOf_map_pair, hdrop]
  have hlen : ∀ {β : Type} (g : Nat → β),
      ((List.range B.numIter).map (fun j => (B.gKey j, g j))).length
        = B.groups.length - B.batch := by
    intro β g
    simp [numIter_eq B hb]
  refine ⟨hkx, hky, hkp, hlen B.tXVal, hlen B.tYVal, hlen B.pXVal, ?_, ?_⟩
  · show (((List.range B.numIter).filter
        (fun j => decide (0 < (B.rawY2 j).length))).map
          (fun j => (B.gKey j, B.pYVal j))).length ≤ B.groups.length - B.batch
    rw [List.length_map]
    have h1 := List.length_filter_le
      (fun j => decide (0 < (B.rawY2 j).length)) (List.range B.numIter)
    rw [List.length_range] at h1
    exact h1.trans (le_of_eq (numIter_eq B hb))
  · intro k hk
    have hk2 : k ∈ keysOf (((List.range B.numIter).filter
        (fun j => decide (0 < (B.rawY2 j).length))).map
          (fun j => (B.gKey j, B.pYVal j))) := hk
    rw [keysOf_map_pair] at hk2
    rcases List.mem_map.mp hk2 with ⟨j, hj, rfl⟩
    have hjr : j ∈ List.range B.numIter := List.mem_filter.mp hj |>.1
    rw [← hdrop]
    exact List.mem_map.mpr ⟨j, hjr, rfl⟩

/-- Witness for the amended C3 on a three-date schedule with batch
size 1: two buckets keyed by the last two schedule dates. -/
theorem bucket_counts_and_keys_witness :
    wInput.groups.drop wInput.batch = [1, 2] ∧
    wInput.groups.length - wInput.batch = 2 ∧
    keysOf (batch_processing wInput.x_values wInput.y_values wInput.groups
        wInput.group_label wInput.batch wInput.risk_exp
        wInput.fp).train_x_buckets
      = wInput.groups.drop wInput.batch ∧
    (batch_processing wInput.x_values wInput.y_values wInput.groups
        wInput.group_label wInput.batch wInput.risk_exp
        wInput.fp).predict_y_buckets.length
      ≤ wInput.groups.length - wInput.batch :=
  have h := bucket_counts_and_keys wInput (by decide) (by decide) (by decide)
    _ rfl
  ⟨by decide, by decide, h.1, h.2.2.2.2.2.2.1⟩

/-- Counterexample to C3 as stated: with the schedule `[0]` of length
`n = 1` and `batch_size = 0 <= n`, the claim demands `n - b = 1` train
bucket, but the source's `groups[:-0]` slice is empty, so the engine
emits none. -/
theorem bucket_counts_batch_zero_counterexample :
    (0 : Nat) ≤ 1 ∧
    ¬ ((batch_processing [(5 : Int)] [6] [0] [0] 0
        (none : Option (List Int))
        (fun a _ => a)).train_x_buckets.length = 1 - 0) := by
  constructor
  · decide
  · decide

/-- Claim C10: for every strictly increasing schedule with
`1 <= batch <= n`, the predict feature dictionary receives an entry for
every emitted window: exactly `n - batch` entries keyed by
`groups[batch], ..., groups[n-1]`, with a stored entry (a `some`
lookup) for every window index, and every key of the predict target
dictionary also keys the predict feature dictionary, so only predict
target buckets can be omitted. -/
theorem predict_x_never_omitted {γ ρ : Type} (B : BPInput γ ρ)
    (hmono : B.groups.Pairwise (· < ·)) (hb : 1 ≤ B.batch)
    (hbn : B.batch ≤ B.groups.length)
    (R : BPState γ ρ)
    (hR : R = batch_processing B.x_values B.y_values B.groups B.group_label
      B.batch B.risk_exp B.fp) :
    R.predict_x_buckets.length = B.groups.length - B.batch ∧
    keysOf R.predict_x_buckets = B.groups.drop B.batch ∧
    (∀ i < B.groups.length - B.batch,
      (R.predict_x_buckets.lookup (B.gKey i)).isSome = true) ∧
    (∀ k, (R.predict_y_buckets.lookup k).isSome = true →
      (R.predict_x_buckets.lookup k).isSome = true) := by
  have hrun : batch_processing B.x_values B.y_values B.groups B.group_label
      B.batch B.risk_exp B.fp = B.run := rfl
  subst hR
  rw [hrun, run_eq B hmono]
  have hdrop := range_map_gKey_eq_drop B hb hbn
  have hkeys : keysOf ((List.range B.numIter).map
      (fun j => (B.gKey j, B.pXVal j))) = B.groups.drop B.batch := by
    rw [keysOf_map_pair, hdrop]
  refine ⟨by simp [numIter_eq B hb], hkeys, ?_, ?_⟩
  · intro i hi
    show ((((List.range B.numIter).map
        (fun j => (B.gKey j, B.pXVal j))).lookup (B.gKey i))).isSome = true
    rw [lookup_map_of_mem B.gKey B.pXVal (List.range B.numIter) i
      (by rw [List.mem_range, numIter_eq B hb]; exact hi)
      (gKey_pairwise_range B hmono)]
    rfl
  · intro k hk
    have hk2 : ((((List.range B.numIter).filter
        (fun j => decide (0 < (B.rawY2 j).length))).map
          (fun j => (B.gKey j, B.pYVal j))).lookup k).isSome = true := hk
    have hmem := mem_keys_of_lookup_isSome k _ hk2
    rw [keysOf_map_pair] at hmem
    rcases List.mem_map.mp hmem with ⟨j, hj, rfl⟩
    have hjr : j ∈ List.range B.numIter := List.mem_filter.mp hj |>.1
    show ((((List.range B.numIter).map
        (fun a => (B.gKey a, B.pXVal a))).lookup (B.gKey j))).isSome = true
    rw [lookup_map_of_mem B.gKey B.pXVal (List.range B.numIter) j hjr
      (gKey_pairwise_range B hmono)]
    rfl

/-- Witness for C10 on the three-date schedule with batch size 1. -/
theorem predict_x_never_omitted_witness :
    (batch_processing wInput.x_values wInput.y_values wInput.groups
        wInput.group_label wInput.batch wInput.risk_exp
        wInput.fp).predict_x_buckets.length
      = wInput.groups.length - wInput.batch ∧
    keysOf (batch_processing wInput.x_values wInput.y_values wInput.groups
        wInput.group_label wInput.batch wInput.risk_exp
        wInput.fp).predict_x_buckets
      = wInput.groups.drop wInput.batch ∧
    wInput.groups.length - wInput.batch = 2 :=
  have h := predict_x_never_omitted wInput (by decide) (by decide) (by decide)
    _ rfl
  ⟨h.1, h.2.1, by decide⟩

/-- Claim C4: when the shifted predict window of a window index holds
zero target rows, no predict target bucket is stored under that
window's key; and whenever every schedule date is present in the label
vector (which holds in the pipeline, where the schedule is the set of
distinct label dates), every stored predict target bucket is a
nonempty array, so no empty-array placeholder is ever stored. -/
theorem predict_y_omitted_when_empty {γ ρ : Type} (B : BPInput γ ρ)
    (hmono : B.groups.Pairwise (· < ·)) (hb : 1 ≤ B.batch)
    (hy : B.y_values.length = B.group_label.length)
    (hfp : ∀ a r, (B.fp a r).length = a.length)
    (R : BPState γ ρ)
    (hR : R = batch_processing B.x_values B.y_values B.groups B.group_label
      B.batch B.risk_exp B.fp) :
    (∀ i < B.groups.length - B.batch, (B.rawY2 i).length = 0 →
      R.predict_y_buckets.lookup (B.gKey i) = none) ∧
    ((∀ g ∈ B.groups, g ∈ B.group_label) →
      ∀ p ∈ R.predict_y_buckets, p.2 ≠ []) := by
  have hrun : batch_processing B.x_values B.y_values B.groups B.group_label
      B.batch B.risk_exp B.fp = B.run := rfl
  subst hR
  rw [hrun, run_eq B hmono]
  constructor
  · intro i hi hempty
    show (((List.range B.numIter).filter
        (fun j => decide (0 < (B.rawY2 j).length))).map
          (fun j => (B.gKey j, B.pYVal j))).lookup (B.gKey i) = none
    apply lookup_eq_none_of_keys_ne
    intro p hp
    rcases List.mem_map.mp hp with ⟨j, hj, rfl⟩
    rcases List.mem_filter.mp hj with ⟨hjr, hjc⟩
    have hji : j ≠ i := by
      intro hcontra
      subst hcontra
      rw [hempty] at hjc
      simp at hjc
    exact gKey_ne_of_ne B hmono (List.mem_range.mp hjr)
      (by rw [numIter_eq B hb]; exact hi) hji
  · intro hsub p hp
    have hp2 : p ∈ ((List.range B.numIter).filter
        (fun j => decide (0 < (B.rawY2 j).length))).map
          (fun j => (B.gKey j, B.pYVal j)) := hp
    rcases List.mem_map.mp hp2 with ⟨j, hj, rfl⟩
    rcases List.mem_filter.mp hj with ⟨hjr, -⟩
    have hjn : j < B.numIter := List.mem_range.mp hjr
    have hb0 : B.batch ≠ 0 := by omega
    have hjlen : j + B.batch < B.groups.length := by
      rw [BPInput.numIter, if_neg hb0] at hjn
      omega
    have hkmem : B.gKey j ∈ B.group_label := by
      rw [gKey_eq_getElem B hjlen]
      exact hsub _ (B.groups.getElem_mem hjlen)
    have hkpred : B.pPred j (B.gKey j) = true := by
      simp only [BPInput.pPred, Bool.and_eq_true, decide_eq_true_eq]
      exact ⟨gStart_lt_gKey B hmono hb hjlen, Nat.le_refl _⟩
    have hksub : B.gKey j ∈ B.group_label.filter (B.pPred j) :=
      List.mem_filter.mpr ⟨hkmem, hkpred⟩
    show B.pYVal j ≠ []
    rw [pYVal_eq B hy hfp j]
    have hlen : (B.fp (rowSel B.y_values B.group_label (B.pPred j))
        (B.pRisk j)).length = (B.group_label.filter (B.pPred j)).length := by
      rw [hfp, length_rowSel _ _ _ hy]
    have hpos : 0 < (rowSel
        (B.fp (rowSel B.y_values B.group_label (B.pPred j)) (B.pRisk j))
        (B.group_label.filter (B.pPred j))
        (fun d => d == B.gKey j)).length := by
      rw [length_rowSel _ _ _ hlen]
      have : B.gKey j ∈ (B.group_label.filter (B.pPred j)).filter
          (fun d => d == B.gKey j) :=
        List.mem_filter.mpr ⟨hksub, by simp⟩
      exact List.length_pos.mpr (List.ne_nil_of_mem this)
    exact List.ne_nil_of_length_pos hpos

/-- Witness for C4: in `wInputGap` the schedule date 5 labels no row,
so its predict window holds no target rows and key 5 is omitted; in
`wInput` every schedule date labels a row and every stored predict
target bucket is nonempty. -/
theorem predict_y_omitted_when_empty_witness :
    (wInputGap.rawY2 0).length = 0 ∧
    wInputGap.gKey 0 = 5 ∧
    (batch_processing wInputGap.x_values wInputGap.y_values wInputGap.groups
        wInputGap.group_label wInputGap.batch wInputGap.risk_exp
        wInputGap.fp).predict_y_buckets.lookup (wInputGap.gKey 0) = none ∧
    (∀ p ∈ (batch_processing wInput.x_values wInput.y_values wInput.groups
        wInput.group_label wInput.batch wInput.risk_exp
        wInput.fp).predict_y_buckets, p.2 ≠ []) :=
  ⟨by decide, by decide,
    (predict_y_omitted_when_empty wInputGap (by decide) (by decide)
        (by decide) (by intro a r; rfl) _ rfl).1 0 (by decide) (by decide),
    (predict_y_omitted_when_empty wInput (by decide) (by decide)
        (by decide) (by intro a r; rfl) _ rfl).2 (by decide)⟩

/-! ## Join pipeline lemmas and claims -/

theorem mem_innerJoin {A B : Type} (l : List (PKey × A)) (r : List (PKey × B))
    (q : PKey × A × B) (hq : q ∈ innerJoin l r) :
    ∃ a ∈ l, ∃ b ∈ r, b.1 = a.1 ∧ q = (a.1, a.2, b.2) := by
  rcases List.mem_flatMap.mp hq with ⟨a, ha, hq2⟩
  rcases List.mem_map.mp hq2 with ⟨b, hb, rfl⟩
  rcases List.mem_filter.mp hb with ⟨hbr, hbk⟩
  exact ⟨a, ha, b, hbr, by simpa using hbk, rfl⟩

theorem mem_leftJoinWeight {A : Type} (l : List (PKey × A))
    (bm : List (PKey × Int)) (w : PKey × A × Option Int)
    (hw : w ∈ leftJoinWeight l bm) :
    (∃ a ∈ l, w.1 = a.1 ∧ w.2.1 = a.2) ∧
    (w.1 ∉ bm.map Prod.fst → w.2.2 = none) := by
  rcases List.mem_flatMap.mp hw with ⟨a, ha, hw2⟩
  by_cases hempty : (bm.filter (fun b => decide (b.1 = a.1))).isEmpty
  · rw [if_pos hempty] at hw2
    rcases List.mem_singleton.mp hw2 with rfl
    exact ⟨⟨a, ha, rfl, rfl⟩, fun _ => rfl⟩
  · rw [if_neg hempty] at hw2
    rcases List.mem_map.mp hw2 with ⟨b, hb, rfl⟩
    rcases List.mem_filter.mp hb with ⟨hbm, hbk⟩
    refine ⟨⟨a, ha, rfl, rfl⟩, fun hnk => absurd ?_ hnk⟩
    exact List.mem_map.mpr ⟨b, hbm, by simpa using hbk⟩

theorem final_row_key_and_weight
    (factor_df : List (PKey × List (Option Int)))
    (return_df : List (PKey × Option Int))
    (benchmark_df : List (PKey × Int))
    (industry_df : List (PKey × Int × Int))
    (r : PKey × ((List Int × Int) × Int) × Int × Int)
    (hr : r ∈ innerJoin
      ((leftJoinWeight
        ((innerJoin factor_df return_df).filterMap (fun q =>
          match allSome q.2.1, q.2.2 with
          | some vs, some d => some (q.1, vs, d)
          | _, _ => none))
        benchmark_df).map (fun q => (q.1, q.2.1, q.2.2.getD 0)))
      industry_df) :
    r.1 ∈ return_df.map Prod.fst ∧
    (r.1 ∉ benchmark_df.map Prod.fst → r.2.1.2 = 0) := by
  rcases mem_innerJoin _ _ _ hr with ⟨a, ha, b, hb, hbk, rfl⟩
  rcases List.mem_map.mp ha with ⟨w, hw, rfl⟩
  have hlj := mem_leftJoinWeight _ _ _ hw
  rcases hlj.1 with ⟨c, hc, hkeq, -⟩
  rcases List.mem_filterMap.mp hc with ⟨m, hm, hsome⟩
  have hck : c.1 = m.1 := by
    cases h1 : allSome m.2.1 with
    | none => rw [h1] at hsome; simp at hsome
    | some vs =>
      cases h2 : m.2.2 with
      | none => rw [h1, h2] at hsome; simp at hsome
      | some d =>
        rw [h1, h2] at hsome
        simp only [Option.some.injEq] at hsome
        rw [← hsome]
  rcases mem_innerJoin _ _ _ hm with ⟨fa, hfa, rb, hrb, hrbk, rfl⟩
  constructor
  · show w.1 ∈ return_df.map Prod.fst
    rw [hkeq, hck]
    exact List.mem_map.mpr ⟨rb, hrb, hrbk⟩
  · intro hnb
    show w.2.2.getD 0 = 0
    rw [hlj.2 hnb]
    rfl

/-- Claim C7: in the Panel Assembler output, a (date, instrument) key
present in the factor panel but absent from the forward-return panel
appears in neither the target frame nor the feature frame, and every
feature row whose key is absent from the benchmark panel carries weight
exactly 0. -/
theorem panel_join_row_policy
    (factor_df : List (PKey × List (Option Int)))
    (return_df : List (PKey × Option Int))
    (benchmark_df : List (PKey × Int))
    (industry_df : List (PKey × Int × Int)) :
    (∀ k : PKey, k ∈ factor_df.map Prod.fst → k ∉ return_df.map Prod.fst →
      (∀ q ∈ (prepare_data_join factor_df return_df benchmark_df
          industry_df).1, q.1 ≠ k) ∧
      (∀ row ∈ (prepare_data_join factor_df return_df benchmark_df
          industry_df).2, row.key ≠ k)) ∧
    (∀ row ∈ (prepare_data_join factor_df return_df benchmark_df
        industry_df).2, row.key ∉ benchmark_df.map Prod.fst →
      row.weight = 0) := by
  constructor
  · intro k _ hkr
    constructor
    · intro q hq
      simp only [prepare_data_join] at hq
      rcases List.mem_map.mp hq with ⟨r, hr, rfl⟩
      have h := final_row_key_and_weight factor_df return_df benchmark_df
        industry_df r hr
      intro hqk
      exact hkr (hqk ▸ h.1)
    · intro row hrow
      simp only [prepare_data_join] at hrow
      rcases List.mem_map.mp hrow with ⟨r, hr, rfl⟩
      have h := final_row_key_and_weight factor_df return_df benchmark_df
        industry_df r hr
      intro hqk
      exact hkr (hqk ▸ h.1)
  · intro row hrow
    simp only [prepare_data_join] at hrow
    rcases List.mem_map.mp hrow with ⟨r, hr, rfl⟩
    have h := final_row_key_and_weight factor_df return_df benchmark_df
      industry_df r hr
    exact h.2

/-- Witness for C7: a two-row factor panel in which instrument 11 has
no forward return and the benchmark panel is empty; the joined output
keeps only instrument 10, with weight filled to 0. -/
theorem panel_join_row_policy_witness :
    (prepare_data_join [(⟨1, 10⟩, [some 7]), (⟨1, 11⟩, [some 8])]
        [(⟨1, 10⟩, some 3)] [] [(⟨1, 10⟩, 100, 200)]).1
      = [(⟨1, 10⟩, 3)] ∧
    (prepare_data_join [(⟨1, 10⟩, [some 7]), (⟨1, 11⟩, [some 8])]
        [(⟨1, 10⟩, some 3)] [] [(⟨1, 10⟩, 100, 200)]).2
      = [⟨⟨1, 10⟩, 0, 100, 200, [7]⟩] ∧
    (∀ q ∈ (prepare_data_join [(⟨1, 10⟩, [some 7]), (⟨1, 11⟩, [some 8])]
        [(⟨1, 10⟩, some 3)] [] [(⟨1, 10⟩, 100, 200)]).1,
      q.1 ≠ ⟨1, 11⟩) ∧
    (∀ row ∈ (prepare_data_join [(⟨1, 10⟩, [some 7]), (⟨1, 11⟩, [some 8])]
        [(⟨1, 10⟩, some 3)] [] [(⟨1, 10⟩, 100, 200)]).2,
      row.key ∉ ([] : List (PKey × Int)).map Prod.fst → row.weight = 0) :=
  have h := panel_join_row_policy
    [(⟨1, 10⟩, [some 7]), (⟨1, 11⟩, [some 8])]
    [(⟨1, 10⟩, some 3)] [] [(⟨1, 10⟩, 100, 200)]
  ⟨by decide, by decide,
    (h.1 ⟨1, 11⟩ (by decide) (by decide)).1, h.2⟩

/-! ## Orchestrator flow claim -/

/-- Claim C9: with `neutralized_risk` left at its default `None`, the
orchestrator flow of `fetch_data_package` always fails: after skipping
the falsy risk branch it iterates `enumerate(None)`, which raises
`TypeError`, so the no-risk-model path never returns a data package. -/
theorem no_risk_path_raises {γ ρ δ : Type} (x_names : List Nat)
    (x_values y_values : List γ) (groups group_label : List Nat) (batch : Nat)
    (risk_data : Option (List ρ))
    (fp : List γ → Option (List ρ) → List γ)
    (return_df : δ) (addRiskCol : δ → Nat × Nat → δ) :
    fetch_data_package_flow x_names none x_values y_values groups group_label
        batch risk_data fp return_df addRiskCol
      = Except.error "TypeError: NoneType object is not iterable" := by
  rfl

end AlphaMind
